import Mathlib

/-!
Verification development for the storefront repository: the client-side
filter/sort pipeline of `src/pages/ProductsPage.tsx` and the server-side
Catalog Normalizer (the Deno `products` edge function) embedded as pure
Lean definitions. JavaScript numbers are modelled as rationals, JavaScript
arrays as lists, thrown exceptions as `Option`/explicit error results.
-/

namespace Storefront

/-- A color entry of the storefront product shape: a display name paired
with a normalized lowercase value. -/
structure ColorEntry where
  name : String
  value : String
deriving DecidableEq, Repr

/-- The storefront `Product` shape (the `FormattedProduct` interface of the
normalizer, which is also the shape the products page consumes). -/
structure Product where
  id : String
  name : String
  price : ℚ
  description : String
  imageUrl : String
  imageUrls : List String
  category : String
  tags : List String
  sizes : List String
  colors : List ColorEntry
  inStock : Bool
  isNew : Bool
  isLimited : Bool
deriving DecidableEq, Repr

/-- A vendor variant option, a key/value pair (`options` entries of the
`PrintfulProduct` interface). -/
structure VOption where
  id : String
  value : String
deriving DecidableEq, Repr

/-- A vendor preview file (`files` entries): carries the preview URL. -/
structure VFile where
  preview_url : String
deriving DecidableEq, Repr

/-- A vendor product variant: retail price as decimal text, preview files,
and options. -/
structure Variant where
  id : String
  retail_price : String
  files : List VFile
  options : List VOption
deriving DecidableEq, Repr

/-- A vendor product (`PrintfulProduct` interface): id, name, and an
ordered sequence of variants. -/
structure PrintfulProduct where
  id : String
  name : String
  variants : List Variant
deriving DecidableEq, Repr

/-- `v.options.find(o => o.id === oid)`: first option with the given id. -/
def findOption (oid : String) (v : Variant) : Option VOption :=
  v.options.find? (fun o => o.id == oid)

/-- `v.options.find(o => o.id === 'size')?.value || 'One Size'`.
The `||` fallback fires when the option is absent (`?.value` is
`undefined`) and also when its value is the empty string, the only falsy
string. -/
def variantSize (v : Variant) : String :=
  match findOption "size" v with
  | some o => if o.value = "" then "One Size" else o.value
  | none => "One Size"

/-- `[...new Set(l)]` for a list of primitive (value-compared) elements:
keeps the first occurrence of each element, in insertion order. -/
def jsSetDedup {α : Type} [DecidableEq α] (l : List α) : List α :=
  l.foldl (fun acc x => if x ∈ acc then acc else acc ++ [x]) []

/-- `uniqueSizes` of the normalizer:
`[...new Set(product.variants.map(v => ...size fallback...))]`.
Strings are compared by value in a JS `Set`, so this deduplicates. -/
def uniqueSizes (p : PrintfulProduct) : List String :=
  jsSetDedup (p.variants.map variantSize)

/-- `uniqueColors` of the normalizer:
`[...new Set(variants.map(v => colorOption ? THE-OBJECT : null).filter(Boolean))]`.
Each `.map` callback returns a FRESH object literal, and a JS `Set`
compares objects by reference, so the `Set` never merges two entries:
after `null` entries are dropped by `.filter(Boolean)`, every remaining
entry survives, in variant order. Hence the embedding is the `filterMap`
with no deduplication. -/
def uniqueColors (p : PrintfulProduct) : List ColorEntry :=
  (p.variants.map (fun v =>
    (findOption "color" v).map (fun o => ColorEntry.mk o.value o.value.toLower))).filterMap id

/-- `v.files[0].preview_url` as a fallible access: `none` models the
`TypeError` thrown when `files` is empty (`files[0]` is `undefined`). -/
def firstFileUrl (v : Variant) : Option String :=
  v.files.head?.map (fun f => f.preview_url)

/-- `product.variants.map(v => v.files[0].preview_url)` with exception
propagation: the whole map fails as soon as one variant has no files. -/
def mapFirstFiles : List Variant → Option (List String)
  | [] => some []
  | v :: vs =>
    match firstFileUrl v, mapFirstFiles vs with
    | some u, some us => some (u :: us)
    | _, _ => none

/-- Model of `parseFloat` on the well-formed decimal strings the vendor
sends for `retail_price` (digits, optionally a dot and digits). No claim
depends on this field; malformed strings map to 0 rather than NaN. -/
def parseRetail (s : String) : ℚ :=
  match s.splitOn "." with
  | [i] => ((i.toNat?.getD 0 : ℕ) : ℚ)
  | [i, f] => ((i.toNat?.getD 0 : ℕ) : ℚ) + ((f.toNat?.getD 0 : ℕ) : ℚ) / (10 ^ f.length)
  | _ => 0

/-- The per-product mapping body of `formattedProducts`. `none` models a
thrown `TypeError`: `mainVariant.retail_price` when `variants` is empty
(`variants[0]` is `undefined`), or `v.files[0].preview_url` when some
variant has no files. -/
def formatProduct (p : PrintfulProduct) : Option Product :=
  match p.variants.head? with
  | none => none
  | some mainVariant =>
    match firstFileUrl mainVariant, mapFirstFiles p.variants with
    | some imageUrl, some imageUrls =>
      some { id := p.id, name := p.name,
             price := parseRetail mainVariant.retail_price,
             description := p.name,
             imageUrl := imageUrl, imageUrls := imageUrls,
             category := "t-shirts", tags := ["printful"],
             sizes := uniqueSizes p, colors := uniqueColors p,
             inStock := true, isNew := false, isLimited := false }
    | _, _ => none

/-- `products.map(formatProduct-body)` with exception propagation: any
single throwing product aborts the whole array. -/
def formatProducts : List PrintfulProduct → Option (List Product)
  | [] => some []
  | p :: ps =>
    match formatProduct p, formatProducts ps with
    | some fp, some fps => some (fp :: fps)
    | _, _ => none

/-- The body of a handler response, kept structured: an empty body (the
OPTIONS preflight), a JSON product array, or a JSON object with an
`error` field holding the message. -/
inductive RespBody where
  | empty
  | productsJson (ps : List Product)
  | errorJson (message : String)
deriving DecidableEq, Repr

/-- An HTTP response of the normalizer: status code and body. -/
structure HttpResponse where
  status : ℕ
  body : RespBody
deriving DecidableEq, Repr

/-- The outcome of the single outbound `fetch` to the vendor catalog API,
as far as the handler inspects it: a parsed payload (`data.result`), or a
non-ok status with its `statusText`. -/
inductive VendorResult where
  | ok (products : List PrintfulProduct)
  | httpError (statusText : String)
deriving DecidableEq, Repr

/-- The `try` block of the handler, with the `Bool` recording whether the
outbound vendor call was performed. `Except` carries the thrown message;
for the property accesses on `undefined` the JS runtime message text is
runtime-specific and is modelled by a fixed placeholder. -/
def handlerTry (apiKey : Option String) (vendor : VendorResult) :
    Except String (List Product) × Bool :=
  match apiKey with
  | none => (Except.error "Printful API key not configured", false)
  | some _ =>
    match vendor with
    | VendorResult.httpError st =>
      (Except.error ("Printful API error: " ++ st), true)
    | VendorResult.ok products =>
      match formatProducts products with
      | none => (Except.error "TypeError: cannot read properties of undefined", true)
      | some fps => (Except.ok fps, true)

/-- The `Deno.serve` handler: OPTIONS preflight answered with an empty
200 response; otherwise the `try` block runs and the `catch` turns any
thrown error into a 500 JSON error body. The second component records
whether the outbound vendor call was performed. -/
def handleRequest (method : String) (apiKey : Option String)
    (vendor : VendorResult) : HttpResponse × Bool :=
  if method = "OPTIONS" then
    (HttpResponse.mk 200 RespBody.empty, false)
  else
    match handlerTry apiKey vendor with
    | (Except.ok fps, called) =>
      (HttpResponse.mk 200 (RespBody.productsJson fps), called)
    | (Except.error msg, called) =>
      (HttpResponse.mk 500 (RespBody.errorJson msg), called)

/-! ## Filter/sort pipeline (client side, the filter/sort `useEffect`) -/

/-- The active filter selection: three independent string lists. -/
structure Filters where
  categories : List String
  prices : List String
  sizes : List String
deriving DecidableEq, Repr

/-- The price-band membership of a band identifier, as enumerated by the
spec: under-50 is price < 50; 50-100 is 50 ≤ price ≤ 100; 100-150 is
100 < price ≤ 150; over-150 is price > 150; any other identifier matches
nothing. -/
def bandMatches (band : String) (price : ℚ) : Bool :=
  if band = "under-50" then decide (price < 50)
  else if band = "50-100" then decide (50 ≤ price) && decide (price ≤ 100)
  else if band = "100-150" then decide (100 < price) && decide (price ≤ 150)
  else if band = "over-150" then decide (price > 150)
  else false

/-- The fixed enumeration of price bands offered by the filter UI. -/
def allBands : List String := ["under-50", "50-100", "100-150", "over-150"]

/-- The bands of the fixed enumeration that accept a given price. -/
def matchingBands (price : ℚ) : List String :=
  allBands.filter (fun b => bandMatches b price)

/-- The price-filter callback of the `useEffect`, translated literally
from the cascade of `if (prices.includes(BAND) && COMPARISON) return true`
statements ending in `return false`. -/
def priceFilterPred (chosen : List String) (price : ℚ) : Bool :=
  if chosen.contains "under-50" && decide (price < 50) then true
  else if chosen.contains "50-100" && (decide (price ≥ 50) && decide (price ≤ 100)) then true
  else if chosen.contains "100-150" && (decide (price > 100) && decide (price ≤ 150)) then true
  else if chosen.contains "over-150" && decide (price > 150) then true
  else false

/-- The three guarded filter passes of the `useEffect`: each dimension
filters only when its selection list is non-empty. -/
def applyFilters (f : Filters) (l : List Product) : List Product :=
  let r1 := if f.categories.length > 0
    then l.filter (fun p => f.categories.contains p.category) else l
  let r2 := if f.prices.length > 0
    then r1.filter (fun p => priceFilterPred f.prices p.price) else r1
  let r3 := if f.sizes.length > 0
    then r2.filter (fun p => p.sizes.any (fun s => f.sizes.contains s)) else r2
  r3

/-- Insert `x` into `l` immediately before the first element `y` with
`lt x y`; among elements compared equal, `x` lands after the ones already
present. -/
def insertBefore {α : Type} (lt : α → α → Bool) (x : α) : List α → List α
  | [] => [x]
  | y :: ys => if lt x y then x :: y :: ys else y :: insertBefore lt x ys

/-- A stable sort modelling `Array.prototype.sort(cmp)` (stable per the
ECMAScript specification) for a consistent comparator, with
`lt a b ↔ cmp(a,b) < 0`: elements are taken left to right and each is
inserted after every earlier element not strictly greater than it. -/
def stableSort {α : Type} (lt : α → α → Bool) (l : List α) : List α :=
  l.foldl (fun acc x => insertBefore lt x acc) []

/-- `cmp(a,b) < 0` for the comparator `(a, b) => a.price - b.price`. -/
def ltPriceLow (a b : Product) : Bool := decide (a.price < b.price)

/-- `cmp(a,b) < 0` for the comparator `(a, b) => b.price - a.price`. -/
def ltPriceHigh (a b : Product) : Bool := decide (b.price < a.price)

/-- `cmp(a,b) < 0` for the comparator
`(a, b) => (a.isNew === b.isNew) ? 0 : a.isNew ? -1 : 1`. -/
def ltNewest (a b : Product) : Bool := !(a.isNew == b.isNew) && a.isNew

/-- The `switch (sortBy)` of the `useEffect`: a recognized key sorts with
its comparator, any other key leaves the filtered order unchanged. -/
def applySort (key : String) (l : List Product) : List Product :=
  match key with
  | "price-low" => stableSort ltPriceLow l
  | "price-high" => stableSort ltPriceHigh l
  | "newest" => stableSort ltNewest l
  | _ => l

/-- `[...products]`: the spread copy taken before any in-place operation,
building a fresh array element by element. -/
def spreadCopy {α : Type} (l : List α) : List α :=
  l.foldr (fun x acc => x :: acc) []

/-- One run of the filter/sort `useEffect` body over (products,
activeFilters, sortBy). The first component is the `products` array as
observable after the run: the body copies it (`[...products]`) and every
in-place operation (`result.sort`) targets the copy, so it is returned
untouched. The second component is the value passed to
`setFilteredProducts`. -/
def runPipeline (products : List Product) (f : Filters) (key : String) :
    List Product × List Product :=
  (products, applySort key (applyFilters f (spreadCopy products)))

/-! ## Claim-side definitions and concrete sample inputs -/

/-- The per-variant size value as the claim words it: the value of the
"size" option across variants, with the sentinel substituted only when a
variant HAS NO size option. Written from the claim, to be compared with
`variantSize` from the source. -/
def claimedVariantSize (v : Variant) : String :=
  match findOption "size" v with
  | some o => o.value
  | none => "One Size"

/-- The `sizes` mapping as the claim words it: the set of distinct
per-variant size values with the sentinel only for option-less variants.
Written from the claim, to be compared with `uniqueSizes`. -/
def claimedSizes (p : PrintfulProduct) : List String :=
  jsSetDedup (p.variants.map claimedVariantSize)

/-- Sample variant: size M, color Black, one preview file. -/
def sampleV1 : Variant :=
  { id := "v1", retail_price := "25.00", files := [VFile.mk "u1"],
    options := [VOption.mk "color" "Black", VOption.mk "size" "M"] }

/-- Sample variant: color Black again, no size option, one preview file. -/
def sampleV2 : Variant :=
  { id := "v2", retail_price := "25.00", files := [VFile.mk "u2"],
    options := [VOption.mk "color" "Black"] }

/-- Sample vendor product whose two variants carry the same color name. -/
def sampleDupColor : PrintfulProduct :=
  { id := "p1", name := "Tee", variants := [sampleV1, sampleV2] }

/-- The color entry both variants of `sampleDupColor` produce. -/
def blackEntry : ColorEntry := ColorEntry.mk "Black" ("Black".toLower)

/-- Sample variant whose "size" option is present with an empty value. -/
def sampleVEmptySize : Variant :=
  { id := "v3", retail_price := "10", files := [VFile.mk "u3"],
    options := [VOption.mk "size" ""] }

/-- Sample vendor product with a single empty-size-value variant. -/
def sampleEmptySize : PrintfulProduct :=
  { id := "p2", name := "Cap", variants := [sampleVEmptySize] }

/-- Sample storefront product A: new, price 80. -/
def prodA : Product :=
  { id := "A", name := "A", price := 80, description := "A",
    imageUrl := "a", imageUrls := ["a"], category := "t-shirts",
    tags := [], sizes := ["M"], colors := [], inStock := true,
    isNew := true, isLimited := false }

/-- Sample storefront product B: not new, price 20. -/
def prodB : Product :=
  { id := "B", name := "B", price := 20, description := "B",
    imageUrl := "b", imageUrls := ["b"], category := "hoodies",
    tags := [], sizes := ["L"], colors := [], inStock := true,
    isNew := false, isLimited := false }

/-! ## Helper lemmas -/

/-- Membership in the dedup fold: an element is in the result iff it is in
the accumulator or in the remaining input. -/
theorem mem_dedup_foldl {α : Type} [DecidableEq α] (l : List α) :
    ∀ (acc : List α) (x : α),
      (x ∈ l.foldl (fun acc x => if x ∈ acc then acc else acc ++ [x]) acc) ↔
        x ∈ acc ∨ x ∈ l := by
  induction l with
  | nil => intro acc x; simp
  | cons y ys ih =>
    intro acc x
    simp only [List.foldl_cons]
    by_cases hy : y ∈ acc
    · rw [if_pos hy, ih]
      constructor
      · rintro (h | h)
        · exact Or.inl h
        · exact Or.inr (List.mem_cons_of_mem _ h)
      · rintro (h | h)
        · exact Or.inl h
        · rcases List.mem_cons.mp h with rfl | h
          · exact Or.inl hy
          · exact Or.inr h
    · rw [if_neg hy, ih]
      simp only [List.mem_append, List.mem_singleton, List.mem_cons]
      tauto

/-- The dedup fold preserves `Nodup` of the accumulator. -/
theorem nodup_dedup_foldl {α : Type} [DecidableEq α] (l : List α) :
    ∀ acc : List α, acc.Nodup →
      (l.foldl (fun acc x => if x ∈ acc then acc else acc ++ [x]) acc).Nodup := by
  induction l with
  | nil => intro acc h; simpa using h
  | cons y ys ih =>
    intro acc h
    simp only [List.foldl_cons]
    by_cases hy : y ∈ acc
    · rw [if_pos hy]; exact ih acc h
    · rw [if_neg hy]
      refine ih _ ((List.nodup_append).mpr ⟨h, List.nodup_singleton y, ?_⟩)
      intro a ha hb
      rw [List.mem_singleton] at hb
      subst hb
      exact absurd ha hy

/-- `jsSetDedup` keeps exactly the elements of its input. -/
theorem mem_jsSetDedup {α : Type} [DecidableEq α] (l : List α) (x : α) :
    x ∈ jsSetDedup l ↔ x ∈ l := by
  unfold jsSetDedup
  rw [mem_dedup_foldl]
  simp

/-- `jsSetDedup` never repeats an element. -/
theorem nodup_jsSetDedup {α : Type} [DecidableEq α] (l : List α) :
    (jsSetDedup l).Nodup :=
  nodup_dedup_foldl l [] List.nodup_nil

/-- Inserting an element is a permutation of prepending it. -/
theorem insertBefore_perm {α : Type} (lt : α → α → Bool) (x : α) :
    ∀ l : List α, (insertBefore lt x l).Perm (x :: l) := by
  intro l
  induction l with
  | nil => simp [insertBefore]
  | cons y ys ih =>
    unfold insertBefore
    by_cases h : lt x y
    · rw [if_pos h]
    · rw [if_neg h]
      exact (ih.cons y).trans (List.Perm.swap x y ys)

/-- The stable-sort fold permutes the accumulator joined with the input. -/
theorem stableSort_foldl_perm {α : Type} (lt : α → α → Bool) (l : List α) :
    ∀ acc : List α,
      (l.foldl (fun acc x => insertBefore lt x acc) acc).Perm (acc ++ l) := by
  induction l with
  | nil => intro acc; simp
  | cons y ys ih =>
    intro acc
    simp only [List.foldl_cons]
    refine (ih (insertBefore lt y acc)).trans ?_
    have h1 : (insertBefore lt y acc ++ ys).Perm ((y :: acc) ++ ys) :=
      (insertBefore_perm lt y acc).append_right ys
    refine h1.trans ?_
    exact List.perm_middle.symm

/-- `stableSort` is a permutation of its input. -/
theorem stableSort_perm {α : Type} (lt : α → α → Bool) (l : List α) :
    (stableSort lt l).Perm l := by
  unfold stableSort
  simpa using stableSort_foldl_perm lt l []

/-- Inserting an `isNew` product into a partitioned list (new items first)
lands it at the end of the new segment. -/
theorem insertBefore_ltNewest_new (x : Product) (hx : x.isNew = true) :
    ∀ (A B : List Product), (∀ a ∈ A, a.isNew = true) →
      (∀ b ∈ B, b.isNew = false) →
      insertBefore ltNewest x (A ++ B) = A ++ x :: B := by
  intro A
  induction A with
  | nil =>
    intro B _ hB
    cases B with
    | nil => rfl
    | cons b bs =>
      have hb : b.isNew = false := hB b (List.mem_cons_self b bs)
      simp [insertBefore, ltNewest, hx, hb]
  | cons a as ih =>
    intro B hA hB
    have ha : a.isNew = true := hA a (List.mem_cons_self a as)
    have step : ltNewest x a = false := by simp [ltNewest, hx, ha]
    simp only [List.cons_append, insertBefore, step, Bool.false_eq_true,
      if_false, List.cons.injEq, true_and]
    exact ih B (fun a' ha' => hA a' (List.mem_cons_of_mem a ha')) hB

/-- Inserting a non-new product never moves past anything: it lands at the
very end. -/
theorem insertBefore_ltNewest_old (x : Product) (hx : x.isNew = false) :
    ∀ l : List Product, insertBefore ltNewest x l = l ++ [x] := by
  intro l
  induction l with
  | nil => rfl
  | cons y ys ih =>
    have step : ltNewest x y = false := by simp [ltNewest, hx]
    simp [insertBefore, step, ih]

/-- The newest-sort fold keeps a partitioned accumulator partitioned,
appending each new element to the end of its segment. -/
theorem foldl_ltNewest_partition (l : List Product) :
    ∀ (A B : List Product), (∀ a ∈ A, a.isNew = true) →
      (∀ b ∈ B, b.isNew = false) →
      l.foldl (fun acc x => insertBefore ltNewest x acc) (A ++ B) =
        (A ++ l.filter (fun p => p.isNew)) ++ (B ++ l.filter (fun p => !p.isNew)) := by
  induction l with
  | nil => intro A B _ _; simp
  | cons x xs ih =>
    intro A B hA hB
    simp only [List.foldl_cons]
    by_cases hx : x.isNew = true
    · rw [insertBefore_ltNewest_new x hx A B hA hB]
      have hx' : x :: B = [x] ++ B := rfl
      rw [hx', ← List.append_assoc]
      rw [ih (A ++ [x]) B ?_ hB]
      · simp [List.filter_cons, hx, List.append_assoc]
      · intro a ha
        rcases List.mem_append.mp ha with h | h
        · exact hA a h
        · rw [List.mem_singleton] at h; subst h; exact hx
    · have hx0 : x.isNew = false := Bool.eq_false_iff.mpr hx
      rw [insertBefore_ltNewest_old x hx0, List.append_assoc]
      rw [ih A (B ++ [x]) hA ?_]
      · simp [List.filter_cons, hx0, List.append_assoc]
      · intro b hb
        rcases List.mem_append.mp hb with h | h
        · exact hB b h
        · rw [List.mem_singleton] at h; subst h; exact hx0

/-- Sorting with the newest comparator is the stable partition: new items
first, original relative order preserved inside each segment. -/
theorem stableSort_ltNewest_eq (l : List Product) :
    stableSort ltNewest l =
      l.filter (fun p => p.isNew) ++ l.filter (fun p => !p.isNew) := by
  unfold stableSort
  have h := foldl_ltNewest_partition l [] [] (by simp) (by simp)
  simpa using h

/-- `files[0].preview_url` throws exactly on an empty `files` array. -/
theorem firstFileUrl_eq_none_iff (v : Variant) :
    firstFileUrl v = none ↔ v.files = [] := by
  unfold firstFileUrl
  cases v.files <;> simp

/-- The per-variant image map throws exactly when some variant has no
files. -/
theorem mapFirstFiles_eq_none_iff (vs : List Variant) :
    mapFirstFiles vs = none ↔ ∃ v ∈ vs, v.files = [] := by
  induction vs with
  | nil => simp [mapFirstFiles]
  | cons v vs ih =>
    unfold mapFirstFiles
    cases hf : firstFileUrl v with
    | none =>
      simp only [true_iff]
      exact ⟨v, List.mem_cons_self v vs, (firstFileUrl_eq_none_iff v).mp hf⟩
    | some u =>
      cases hm : mapFirstFiles vs with
      | none =>
        simp only [true_iff]
        obtain ⟨w, hw, hwf⟩ := ih.mp hm
        exact ⟨w, List.mem_cons_of_mem v hw, hwf⟩
      | some us =>
        refine iff_of_false (by simp) ?_
        rintro ⟨w, hw, hwf⟩
        rcases List.mem_cons.mp hw with rfl | hw'
        · rw [(firstFileUrl_eq_none_iff w).mpr hwf] at hf; cases hf
        · have := ih.mpr ⟨w, hw', hwf⟩
          rw [this] at hm; cases hm

/-- On success, the per-variant image map returns one URL per variant, in
order: the i-th output is the first preview URL of the i-th variant. -/
theorem mapFirstFiles_eq_some (vs : List Variant) :
    ∀ us : List String, mapFirstFiles vs = some us →
      us.length = vs.length ∧
        ∀ i (hi : i < vs.length) (hu : i < us.length),
          firstFileUrl (vs.get ⟨i, hi⟩) = some (us.get ⟨i, hu⟩) := by
  induction vs with
  | nil =>
    intro us h
    unfold mapFirstFiles at h
    cases h
    exact ⟨rfl, by intro i hi; cases hi⟩
  | cons v vs ih =>
    intro us h
    unfold mapFirstFiles at h
    cases hf : firstFileUrl v with
    | none => rw [hf] at h; cases h
    | some u =>
      rw [hf] at h
      cases hm : mapFirstFiles vs with
      | none => rw [hm] at h; cases h
      | some us' =>
        rw [hm] at h
        cases h
        obtain ⟨hlen, hget⟩ := ih us' hm
        refine ⟨by simpa using hlen, ?_⟩
        intro i hi hu
        cases i with
        | zero => simpa using hf
        | succ j =>
          have hj : j < vs.length := Nat.lt_of_succ_lt_succ hi
          have hju : j < us'.length := Nat.lt_of_succ_lt_succ hu
          simpa using hget j hj hju

/-- The mapping body succeeds iff the product has a variant and every
variant has a file; on success it records the main variant, `imageUrl`
and `imageUrls` faithfully. -/
theorem formatProduct_eq_some_elim (p : PrintfulProduct) (fp : Product) :
    formatProduct p = some fp →
      ∃ mv, p.variants.head? = some mv ∧
        firstFileUrl mv = some fp.imageUrl ∧
        mapFirstFiles p.variants = some fp.imageUrls := by
  intro h
  unfold formatProduct at h
  split at h
  · cases h
  · split at h
    · cases h
      rename_i mv hv x1 x2 u us hf hm
      exact ⟨mv, hv, hf, hm⟩
    · cases h

/-- The mapping body throws exactly when the product has no variants or
some variant has no files. -/
theorem formatProduct_eq_none_iff (p : PrintfulProduct) :
    formatProduct p = none ↔
      p.variants = [] ∨ ∃ v ∈ p.variants, v.files = [] := by
  unfold formatProduct
  cases hv : p.variants with
  | nil => simp
  | cons mv rest =>
    simp only [List.head?_cons, List.cons_ne_nil, false_or]
    cases hf : firstFileUrl mv with
    | none =>
      simp only [true_iff]
      exact ⟨mv, List.mem_cons_self mv rest, (firstFileUrl_eq_none_iff mv).mp hf⟩
    | some u =>
      cases hm : mapFirstFiles (mv :: rest) with
      | none =>
        simp only [true_iff]
        exact (mapFirstFiles_eq_none_iff (mv :: rest)).mp hm
      | some us =>
        refine iff_of_false (by simp) ?_
        intro hex
        have := (mapFirstFiles_eq_none_iff (mv :: rest)).mpr hex
        rw [this] at hm; cases hm

/-- One throwing product aborts the whole `products.map`. -/
theorem formatProducts_eq_none (ps : List PrintfulProduct) :
    (∃ p ∈ ps, formatProduct p = none) → formatProducts ps = none := by
  induction ps with
  | nil => rintro ⟨p, hp, _⟩; cases hp
  | cons q qs ih =>
    rintro ⟨p, hp, hnone⟩
    unfold formatProducts
    rcases List.mem_cons.mp hp with rfl | hp'
    · rw [hnone]
    · rw [ih ⟨p, hp', hnone⟩]
      cases formatProduct q <;> rfl

/-- `contains` for strings agrees with membership. -/
theorem contains_iff (l : List String) (a : String) :
    l.contains a = true ↔ a ∈ l := by
  unfold List.contains
  exact List.elem_iff

theorem bandMatches_under (p : ℚ) :
    bandMatches "under-50" p = decide (p < 50) := rfl

theorem bandMatches_mid (p : ℚ) :
    bandMatches "50-100" p = (decide (50 ≤ p) && decide (p ≤ 100)) := rfl

theorem bandMatches_high (p : ℚ) :
    bandMatches "100-150" p = (decide (100 < p) && decide (p ≤ 150)) := rfl

theorem bandMatches_over (p : ℚ) :
    bandMatches "over-150" p = decide (p > 150) := rfl

/-- A band identifier accepting a price is one of the four bands, with
its comparison holding. -/
theorem bandMatches_true_elim (b : String) (p : ℚ) :
    bandMatches b p = true →
      (b = "under-50" ∧ p < 50) ∨ (b = "50-100" ∧ 50 ≤ p ∧ p ≤ 100) ∨
      (b = "100-150" ∧ 100 < p ∧ p ≤ 150) ∨ (b = "over-150" ∧ 150 < p) := by
  intro h
  unfold bandMatches at h
  split_ifs at h with h1 h2 h3 h4
  · exact Or.inl ⟨h1, of_decide_eq_true h⟩
  · rw [Bool.and_eq_true] at h
    exact Or.inr (Or.inl ⟨h2, of_decide_eq_true h.1, of_decide_eq_true h.2⟩)
  · rw [Bool.and_eq_true] at h
    exact Or.inr (Or.inr (Or.inl ⟨h3, of_decide_eq_true h.1, of_decide_eq_true h.2⟩))
  · exact Or.inr (Or.inr (Or.inr ⟨h4, of_decide_eq_true h⟩))

theorem matchingBands_of_lt_50 (p : ℚ) (h : p < 50) :
    matchingBands p = ["under-50"] := by
  have h1 : ¬ 50 ≤ p := not_le.mpr h
  have h2 : ¬ (100 : ℚ) < p := not_lt.mpr (le_of_lt (h.trans (by norm_num)))
  have h3 : ¬ (150 : ℚ) < p := not_lt.mpr (le_of_lt (h.trans (by norm_num)))
  simp [matchingBands, allBands, List.filter, bandMatches_under, bandMatches_mid,
    bandMatches_high, bandMatches_over, h, h1, h2, h3]

theorem matchingBands_of_mid (p : ℚ) (h1 : 50 ≤ p) (h2 : p ≤ 100) :
    matchingBands p = ["50-100"] := by
  have g1 : ¬ p < 50 := not_lt.mpr h1
  have g2 : ¬ (100 : ℚ) < p := not_lt.mpr h2
  have g3 : ¬ (150 : ℚ) < p := not_lt.mpr (h2.trans (by norm_num))
  simp [matchingBands, allBands, List.filter, bandMatches_under, bandMatches_mid,
    bandMatches_high, bandMatches_over, g1, g2, g3, h1, h2]

theorem matchingBands_of_high (p : ℚ) (h1 : 100 < p) (h2 : p ≤ 150) :
    matchingBands p = ["100-150"] := by
  have g1 : ¬ p < 50 := not_lt.mpr (le_of_lt ((by norm_num : (50 : ℚ) < 100).trans h1))
  have g2 : ¬ p ≤ 100 := not_le.mpr h1
  have g3 : ¬ (150 : ℚ) < p := not_lt.mpr h2
  simp [matchingBands, allBands, List.filter, bandMatches_under, bandMatches_mid,
    bandMatches_high, bandMatches_over, g1, g2, g3, h1, h2]

theorem matchingBands_of_over (p : ℚ) (h : 150 < p) :
    matchingBands p = ["over-150"] := by
  have g1 : ¬ p < 50 := not_lt.mpr (le_of_lt ((by norm_num : (50 : ℚ) < 150).trans h))
  have g2 : ¬ p ≤ 100 := not_le.mpr ((by norm_num : (100 : ℚ) < 150).trans h)
  have g3 : ¬ p ≤ 150 := not_le.mpr h
  simp [matchingBands, allBands, List.filter, bandMatches_under, bandMatches_mid,
    bandMatches_high, bandMatches_over, g1, g2, g3, h]

/-- Every price is accepted by exactly one of the four bands. -/
theorem matchingBands_length_one (p : ℚ) : (matchingBands p).length = 1 := by
  rcases lt_or_le p 50 with h | h
  · rw [matchingBands_of_lt_50 p h]; rfl
  · rcases le_or_lt p 100 with h2 | h2
    · rw [matchingBands_of_mid p h h2]; rfl
    · rcases le_or_lt p 150 with h3 | h3
      · rw [matchingBands_of_high p h2 h3]; rfl
      · rw [matchingBands_of_over p h3]; rfl

/-- The literal if-cascade of the price filter is the OR over chosen
bands. -/
theorem priceFilterPred_iff (c : List String) (p : ℚ) :
    priceFilterPred c p = true ↔ ∃ b ∈ c, bandMatches b p = true := by
  unfold priceFilterPred
  split_ifs with h1 h2 h3 h4
  · rw [Bool.and_eq_true] at h1
    simp only [true_iff]
    exact ⟨"under-50", (contains_iff c _).mp h1.1,
      by rw [bandMatches_under]; exact h1.2⟩
  · rw [Bool.and_eq_true] at h2
    simp only [true_iff]
    exact ⟨"50-100", (contains_iff c _).mp h2.1,
      by rw [bandMatches_mid]; exact h2.2⟩
  · rw [Bool.and_eq_true] at h3
    simp only [true_iff]
    exact ⟨"100-150", (contains_iff c _).mp h3.1,
      by rw [bandMatches_high]; exact h3.2⟩
  · rw [Bool.and_eq_true] at h4
    simp only [true_iff]
    exact ⟨"over-150", (contains_iff c _).mp h4.1,
      by rw [bandMatches_over]; exact h4.2⟩
  · refine iff_of_false (by simp) ?_
    rintro ⟨b, hb, hmatch⟩
    have hcont : c.contains b = true := (contains_iff c b).mpr hb
    rcases bandMatches_true_elim b p hmatch with ⟨rfl, hc⟩ | ⟨rfl, hc⟩ | ⟨rfl, hc⟩ | ⟨rfl, hc⟩
    · exact h1 (by rw [Bool.and_eq_true]; exact ⟨hcont, decide_eq_true hc⟩)
    · exact h2 (by
        rw [Bool.and_eq_true, Bool.and_eq_true]
        exact ⟨hcont, decide_eq_true hc.1, decide_eq_true hc.2⟩)
    · exact h3 (by
        rw [Bool.and_eq_true, Bool.and_eq_true]
        exact ⟨hcont, decide_eq_true hc.1, decide_eq_true hc.2⟩)
    · exact h4 (by rw [Bool.and_eq_true]; exact ⟨hcont, decide_eq_true hc⟩)

/-- The spread copy `[...products]` holds the same elements in the same
order. -/
theorem spreadCopy_eq {α : Type} (l : List α) : spreadCopy l = l := by
  induction l with
  | nil => rfl
  | cons x xs ih =>
    unfold spreadCopy at ih ⊢
    simp only [List.foldr_cons]
    rw [ih]

/-- Every product surviving the filter passes came from the input list. -/
theorem mem_applyFilters (f : Filters) (l : List Product) (x : Product) :
    x ∈ applyFilters f l → x ∈ l := by
  unfold applyFilters
  have step : ∀ (b : Prop) (inst : Decidable b) (g : Product → Bool)
      (m : List Product) (y : Product),
      y ∈ (if b then m.filter g else m) → y ∈ m := by
    intro b inst g m y hy
    split at hy
    · exact List.mem_of_mem_filter hy
    · exact hy
  intro hx
  exact step _ _ _ _ _ (step _ _ _ _ _ (step _ _ _ _ _ hx))

/-- Sorting never invents elements: membership is preserved. -/
theorem mem_applySort (key : String) (l : List Product) (x : Product) :
    x ∈ applySort key l → x ∈ l := by
  unfold applySort
  split
  · exact fun h => (stableSort_perm ltPriceLow l).mem_iff.mp h
  · exact fun h => (stableSort_perm ltPriceHigh l).mem_iff.mp h
  · exact fun h => (stableSort_perm ltNewest l).mem_iff.mp h
  · exact id

/-- Membership in the mapped sizes list: exactly the per-variant size
values. -/
theorem mem_uniqueSizes (p : PrintfulProduct) (s : String) :
    s ∈ uniqueSizes p ↔ ∃ v ∈ p.variants, variantSize v = s := by
  unfold uniqueSizes
  rw [mem_jsSetDedup, List.mem_map]

/-- The per-variant size value is never the empty string. -/
theorem variantSize_ne_empty (v : Variant) : variantSize v ≠ "" := by
  unfold variantSize
  split
  · split
    · decide
    · next hne => exact hne
  · decide

/-! ## Claim theorems -/

/-- C1: evaluating `uniqueColors` at a vendor product whose two variants
both carry the color name "Black" — the claim says the mapped `colors` is
the set of DISTINCT color names, but the code keeps both entries: the JS
`Set` is built over fresh object references, so it never deduplicates,
contradicting the evident dedup intent of `new Set` and the name
`uniqueColors`. -/
theorem uniqueColors_keeps_duplicate_color_names :
    uniqueColors sampleDupColor = [blackEntry, blackEntry] ∧
    ¬ (uniqueColors sampleDupColor).Nodup ∧
    (uniqueColors sampleDupColor).length = 2 := by
  refine ⟨rfl, ?_, rfl⟩
  have h : uniqueColors sampleDupColor = [blackEntry, blackEntry] := rfl
  rw [h]
  simp

/-- C2: the four price bands use the stated boundaries, are pairwise
disjoint and exhaustive — every price is accepted by exactly one band
(price 50 and 100 only by "50-100", price 150 only by "100-150") — and
the filter passes a price iff it falls in ANY chosen band. -/
theorem priceBands_partition_and_filter_or :
    (∀ p : ℚ, (matchingBands p).length = 1) ∧
    matchingBands 50 = ["50-100"] ∧
    matchingBands 100 = ["50-100"] ∧
    matchingBands 150 = ["100-150"] ∧
    (∀ (chosen : List String) (p : ℚ),
      priceFilterPred chosen p = true ↔ ∃ b ∈ chosen, bandMatches b p = true) :=
  ⟨matchingBands_length_one,
   matchingBands_of_mid 50 (by norm_num) (by norm_num),
   matchingBands_of_mid 100 (by norm_num) (by norm_num),
   matchingBands_of_high 150 (by norm_num) (by norm_num),
   priceFilterPred_iff⟩

/-- C2 witness: the filter predicate holds at price 50 with band
"50-100" chosen. -/
theorem priceBands_witness : priceFilterPred ["50-100"] 50 = true :=
  (priceBands_partition_and_filter_or.2.2.2.2 ["50-100"] 50).mpr
    ⟨"50-100", by decide, by decide⟩

/-- C3: sort key "newest" is the stable partition putting `isNew` items
first and keeping the post-filter relative order inside each group
(`filter` preserves relative order), ignoring price; on products A
(new, price 80) and B (not new, price 20), "newest" gives [A, B] and
"price-low" gives [B, A]. -/
theorem newest_stable_partition_and_examples :
    (∀ l : List Product, applySort "newest" l =
      l.filter (fun p => p.isNew) ++ l.filter (fun p => !p.isNew)) ∧
    applySort "newest" [prodA, prodB] = [prodA, prodB] ∧
    applySort "price-low" [prodA, prodB] = [prodB, prodA] :=
  ⟨fun l => stableSort_ltNewest_eq l, by decide, by decide⟩

/-- C3 witness: the partition shape evaluated at a concrete list. -/
theorem newest_partition_witness :
    applySort "newest" [prodB, prodA] =
      [prodB, prodA].filter (fun p => p.isNew) ++
        [prodB, prodA].filter (fun p => !p.isNew) :=
  newest_stable_partition_and_examples.1 [prodB, prodA]

/-- C4: with the vendor credential absent, any non-OPTIONS request gets
HTTP 500 with a JSON `error` body, and the outbound vendor call is never
performed. -/
theorem missing_credential_500_no_outbound :
    ∀ (method : String) (vendor : VendorResult), method ≠ "OPTIONS" →
      handleRequest method none vendor =
        (HttpResponse.mk 500
          (RespBody.errorJson "Printful API key not configured"), false) := by
  intro method vendor h
  unfold handleRequest
  rw [if_neg h]
  rfl

/-- C4 witness: a GET with no credential, concrete vendor state. -/
theorem missing_credential_witness :
    handleRequest "GET" none (VendorResult.ok []) =
      (HttpResponse.mk 500
        (RespBody.errorJson "Printful API key not configured"), false) :=
  missing_credential_500_no_outbound "GET" (VendorResult.ok []) (by decide)

/-- C5: with all three selection sets empty, each guarded filter pass is
skipped and the input list comes back unchanged in contents and order. -/
theorem empty_filters_identity :
    ∀ l : List Product, applyFilters (Filters.mk [] [] []) l = l :=
  fun _ => rfl

/-- C5 witness: the identity evaluated at a concrete list. -/
theorem empty_filters_witness :
    applyFilters (Filters.mk [] [] []) [prodA, prodB] = [prodA, prodB] :=
  empty_filters_identity [prodA, prodB]

/-- C6: the pipeline is a pure function of (products, filters, sort key):
the products array is observably unchanged after a run (the body operates
on the spread copy), and every product in the output comes from the input
list. -/
theorem pipeline_pure_and_from_input :
    ∀ (l : List Product) (f : Filters) (key : String),
      (runPipeline l f key).1 = l ∧
      ∀ x ∈ (runPipeline l f key).2, x ∈ l := by
  intro l f key
  refine ⟨rfl, ?_⟩
  intro x hx
  unfold runPipeline at hx
  have h1 := mem_applySort key _ x hx
  have h2 := mem_applyFilters f _ x h1
  rw [spreadCopy_eq] at h2
  exact h2

/-- C6 witness: the purity statement at a concrete run. -/
theorem pipeline_pure_witness :
    (runPipeline [prodA, prodB] (Filters.mk [] ["under-50"] []) "price-low").1 =
      [prodA, prodB] :=
  (pipeline_pure_and_from_input [prodA, prodB]
    (Filters.mk [] ["under-50"] []) "price-low").1

/-- C7: whenever the mapping succeeds (so the vendor product has ≥ 1
variant), `imageUrls` has one entry per variant, the i-th entry is the
i-th variant's first preview-file URL, and `imageUrl` is the first
variant's first preview-file URL. -/
theorem imageUrls_one_per_variant :
    ∀ (p : PrintfulProduct) (fp : Product), formatProduct p = some fp →
      fp.imageUrls.length = p.variants.length ∧
      (∀ i (hi : i < p.variants.length) (hu : i < fp.imageUrls.length),
        firstFileUrl (p.variants.get ⟨i, hi⟩) = some (fp.imageUrls.get ⟨i, hu⟩)) ∧
      (∀ mv, p.variants.head? = some mv → firstFileUrl mv = some fp.imageUrl) := by
  intro p fp h
  obtain ⟨mv, hv, hf, hm⟩ := formatProduct_eq_some_elim p fp h
  obtain ⟨hlen, hget⟩ := mapFirstFiles_eq_some p.variants fp.imageUrls hm
  refine ⟨hlen, hget, ?_⟩
  intro mv' hv'
  rw [hv] at hv'
  obtain rfl := Option.some.inj hv'
  exact hf

/-- The mapped product of `sampleDupColor`, spelled out. -/
def sampleFormatted : Product :=
  { id := "p1", name := "Tee", price := parseRetail "25.00",
    description := "Tee", imageUrl := "u1", imageUrls := ["u1", "u2"],
    category := "t-shirts", tags := ["printful"],
    sizes := ["M", "One Size"], colors := [blackEntry, blackEntry],
    inStock := true, isNew := false, isLimited := false }

/-- C7 witness: the mapping of a two-variant product, with the per-variant
image-URL count checked there. -/
theorem imageUrls_witness :
    formatProduct sampleDupColor = some sampleFormatted ∧
    sampleFormatted.imageUrls.length = sampleDupColor.variants.length := by
  have h : formatProduct sampleDupColor = some sampleFormatted := rfl
  exact ⟨h, (imageUrls_one_per_variant sampleDupColor sampleFormatted h).1⟩

/-- C8 counterexample: a variant whose "size" option is present with an
empty-string value contributes the sentinel, not its value, so the mapped
`sizes` differs from the claim's "distinct values of the size option with
the sentinel only for option-less variants". -/
theorem sizes_claim_counterexample :
    uniqueSizes sampleEmptySize ≠ claimedSizes sampleEmptySize ∧
    uniqueSizes sampleEmptySize = ["One Size"] ∧
    claimedSizes sampleEmptySize = [""] := by
  decide

/-- C8 (amended): `sizes` is the deduplicated list of per-variant size
values, where a variant whose size option is missing OR carries an
empty-string value contributes the sentinel "One Size"; the list never
repeats an entry, and if some variant lacks the size option (or has an
empty value) the sentinel appears exactly once. -/
theorem sizes_distinct_with_sentinel :
    ∀ p : PrintfulProduct,
      (uniqueSizes p).Nodup ∧
      (∀ s, s ∈ uniqueSizes p ↔ ∃ v ∈ p.variants, variantSize v = s) ∧
      ((∃ v ∈ p.variants, findOption "size" v = none ∨
          ∃ o, findOption "size" v = some o ∧ o.value = "") →
        (uniqueSizes p).count "One Size" = 1) := by
  intro p
  refine ⟨nodup_jsSetDedup _, mem_uniqueSizes p, ?_⟩
  rintro ⟨v, hv, hcase⟩
  have hsz : variantSize v = "One Size" := by
    unfold variantSize
    rcases hcase with hnone | ⟨o, ho, hval⟩
    · rw [hnone]
    · rw [ho]
      simp [hval]
  have hmem : "One Size" ∈ uniqueSizes p :=
    (mem_uniqueSizes p _).mpr ⟨v, hv, hsz⟩
  exact List.count_eq_one_of_mem (nodup_jsSetDedup _) hmem

/-- C8 witness: the sentinel appears exactly once for the concrete
empty-size-value product. -/
theorem sizes_sentinel_witness :
    (uniqueSizes sampleEmptySize).count "One Size" = 1 :=
  (sizes_distinct_with_sentinel sampleEmptySize).2.2
    ⟨sampleVEmptySize, by decide,
     Or.inr ⟨VOption.mk "size" "", by decide, rfl⟩⟩

/-- C9: the mapping throws exactly when a product has no variants or some
variant has no preview files; any such product in the payload turns the
whole request into HTTP 500 with a JSON error body — no partial product
array is returned. -/
theorem mapping_total_iff_and_500_on_violation :
    (∀ p : PrintfulProduct, formatProduct p = none ↔
        (p.variants = [] ∨ ∃ v ∈ p.variants, v.files = [])) ∧
    (∀ (key : String) (ps : List PrintfulProduct),
      (∃ p ∈ ps, p.variants = [] ∨ ∃ v ∈ p.variants, v.files = []) →
      ∃ msg, handleRequest "GET" (some key) (VendorResult.ok ps) =
        (HttpResponse.mk 500 (RespBody.errorJson msg), true)) := by
  refine ⟨formatProduct_eq_none_iff, ?_⟩
  rintro key ps ⟨p, hp, hbad⟩
  have hnone : formatProduct p = none := (formatProduct_eq_none_iff p).mpr hbad
  have hps : formatProducts ps = none := formatProducts_eq_none ps ⟨p, hp, hnone⟩
  refine ⟨"TypeError: cannot read properties of undefined", ?_⟩
  unfold handleRequest handlerTry
  rw [if_neg (by decide : ¬ ("GET" = "OPTIONS"))]
  simp only [hps]

/-- C9 witness: a payload holding one variant-less product yields the
500 error response. -/
theorem mapping_500_witness :
    ∃ msg, handleRequest "GET" (some "k")
        (VendorResult.ok [PrintfulProduct.mk "x" "X" []]) =
      (HttpResponse.mk 500 (RespBody.errorJson msg), true) :=
  mapping_total_iff_and_500_on_violation.2 "k" [PrintfulProduct.mk "x" "X" []]
    ⟨PrintfulProduct.mk "x" "X" [], by decide, Or.inl rfl⟩

/-- C10: a present-but-empty size option value falls back to the sentinel
(the `||` fallback fires on any falsy value), and no mapped `sizes` list
ever holds the empty string. -/
theorem empty_size_value_maps_to_sentinel :
    (∀ (v : Variant) (o : VOption), findOption "size" v = some o →
      o.value = "" → variantSize v = "One Size") ∧
    (∀ p : PrintfulProduct, "" ∉ uniqueSizes p) := by
  constructor
  · intro v o ho hval
    unfold variantSize
    rw [ho]
    simp [hval]
  · intro p hmem
    obtain ⟨v, hv, hsz⟩ := (mem_uniqueSizes p "").mp hmem
    exact variantSize_ne_empty v hsz

/-- C10 witness: the fallback at the concrete empty-size-value variant. -/
theorem empty_size_value_witness :
    variantSize sampleVEmptySize = "One Size" :=
  empty_size_value_maps_to_sentinel.1 sampleVEmptySize
    (VOption.mk "size" "") (by decide) rfl

end Storefront
